import Mathlib

/-!
# http_server: a shallow embedding of `server.c`

The request-handling pipeline of `server.c` (content-type table, extension
extraction, percent-decoding, request-line matching, response assembly and
the per-connection handler) as Lean functions, and the properties of it that
the specification states.

Conventions of the embedding.

* A C `char` is held as its unsigned value, a natural number (real bytes
  are below 256).  A C string is the list of its bytes before the
  terminating NUL, so a well-formed string has no zero byte (`CStr`).
* Library calls (`strcasecmp`, `strrchr`, `sscanf`, `snprintf`, `regcomp`,
  `regexec`, `read`, `strcpy`) are modelled by the functions of the same
  name.  `malloc` is taken to succeed.  `open` and `read` act on a map from
  file names to file contents; `read` may transfer fewer bytes than asked for
  and does not fail.
* Code that can leave the defined behaviour of C, or loop, returns `Option`
  or an `Outcome` with a fault.
* `handle_client` and `build_http_response` also return the list of their
  calls (`Event`), so that what was allocated, released, read and sent can
  be stated.
-/

namespace HttpServer

/-! ## Bytes and C strings -/

/-- The bytes of a string literal of the source. -/
def bytes (s : String) : List Nat := s.toList.map Char.toNat

/-- A well-formed C string: no byte of it is the terminator. -/
def CStr (s : List Nat) : Prop := ∀ b ∈ s, b ≠ 0

instance (s : List Nat) : Decidable (CStr s) := by
  unfold CStr; infer_instance

/-- The string a `char *` denotes: the bytes of the buffer before the first NUL. -/
def cstr (buf : List Nat) : List Nat := buf.takeWhile (fun b => b != 0)

/-- The call `strlen(s)` on a buffer. -/
def strlen (buf : List Nat) : Nat := (cstr buf).length

/-- The constant of `#define PORT 8080`. -/
def PORT : Nat := 8080

/-- The constant of `#define BUFFER_SIZE 104857600 // 100 Megabytes`. -/
def BUFFER_SIZE : Nat := 104857600

/-! ## get_mime_type (server.c 15-37) -/

/-- The call `tolower(c)` in the "C" locale. -/
def tolower (c : Nat) : Nat := if 65 ≤ c ∧ c ≤ 90 then c + 32 else c

/-- The call `strcasecmp(a, b)`: walks both strings, comparing the lower-cased
bytes, and returns the difference at the first place they differ (the
terminator counts as byte 0), or 0 when both strings end together. -/
def strcasecmp : List Nat → List Nat → Int
  | [], [] => 0
  | [], b :: _ => 0 - (tolower b : Int)
  | a :: _, [] => (tolower a : Int) - 0
  | a :: as, b :: bs =>
    if tolower a = tolower b then strcasecmp as bs
    else (tolower a : Int) - (tolower b : Int)

/-- The function `get_mime_type` of server.c. -/
def get_mime_type (file_ext : List Nat) : List Nat :=
  if strcasecmp file_ext (bytes "html") = 0 ∨ strcasecmp file_ext (bytes "htm") = 0 then
    bytes "text/html"
  else if strcasecmp file_ext (bytes "txt") = 0 then
    bytes "text/plain"
  else if strcasecmp file_ext (bytes "jpg") = 0 ∨ strcasecmp file_ext (bytes "jpeg") = 0 then
    bytes "image/jpeg"
  else if strcasecmp file_ext (bytes "png") = 0 then
    bytes "image/png"
  else
    bytes "application/octet-stream"

/-- Two bytes are the same letter up to ASCII case: equal, or an upper-case
letter and its lower-case form. -/
def sameLetter (x y : Nat) : Bool :=
  x == y || (65 ≤ x && x ≤ 90 && y == x + 32) || (65 ≤ y && y ≤ 90 && x == y + 32)

/-- Case-insensitive equality of two strings, as the specification words it:
same length and the same letters up to case. -/
def eqIgnoreCase : List Nat → List Nat → Bool
  | [], [] => true
  | a :: as, b :: bs => sameLetter a b && eqIgnoreCase as bs
  | _, _ => false

/-! ## get_file_extension (server.c 105-116) -/

/-- The call `strrchr(s, c)` for `c` other than NUL: the offset of the last
occurrence of `c` in `s`, or `none` for the NULL pointer. -/
def strrchr : List Nat → Nat → Option Nat
  | [], _ => none
  | b :: rest, c =>
    match strrchr rest c with
    | some i => some (i + 1)
    | none => if b = c then some 0 else none

/-- The function `get_file_extension` of server.c: `dot == file_name` is offset 0,
`dot + 1` is the string from the byte after the dot. -/
def get_file_extension (file_name : List Nat) : List Nat :=
  match strrchr file_name 46 with
  | none => []
  | some dot => if dot = 0 then [] else file_name.drop (dot + 1)

/-! ## url_decode (server.c 118-143) -/

/-- The value of a hexadecimal digit, `none` for any other byte. -/
def hexval (c : Nat) : Option Nat :=
  if 48 ≤ c ∧ c ≤ 57 then some (c - 48)
  else if 97 ≤ c ∧ c ≤ 102 then some (c - 87)
  else if 65 ≤ c ∧ c ≤ 70 then some (c - 55)
  else none

/-- The call `isspace(c)` in the "C" locale: space, and `\t \n \v \f \r`. -/
def isspace (c : Nat) : Bool := c == 32 || (9 ≤ c && c ≤ 13)

/-- The input item of a `%2x` conversion once white space is skipped: at most
two bytes, an optional sign and hexadecimal digits.  The result is the value
left in `hex_val`; `none` where the conversion fails and leaves `hex_val`
without a value (no digit), and for the two bytes `0x`, which C libraries
treat differently. -/
def scan_hex_item : List Nat → Option Int
  | [] => none
  | c1 :: tl =>
    let d2 : Option Nat := match tl with
      | [] => none
      | c2 :: _ => hexval c2
    if c1 = 43 then d2.map (fun d => (d : Int))
    else if c1 = 45 then d2.map (fun d => - (d : Int))
    else
      match hexval c1 with
      | none => none
      | some d1 =>
        match d2 with
        | some d => some ((16 * d1 + d : Nat) : Int)
        | none =>
          match tl with
          | c2 :: _ => if c1 = 48 ∧ (c2 = 120 ∨ c2 = 88) then none else some (d1 : Int)
          | [] => some (d1 : Int)

/-- The call `sscanf(p, "%2x", &hex_val)`: skips leading white space, then
converts an item of at most two bytes. -/
def sscanf_2x (p : List Nat) : Option Int :=
  scan_hex_item (p.dropWhile isspace)

/-- The assignment `decoded[decoded_len++] = hex_val`: an `int` stored in a `char`. -/
def int_to_char (v : Int) : Nat := (v % 256).toNat

/-- The loop of `url_decode` from position `i`, on the bytes `src[i..]`: the
bytes written to `decoded`.  The test `i + 2 < src_len` holds exactly when two
bytes follow `src[i]`.  The result is `none` when `sscanf` leaves `hex_val`
without a value. -/
def url_decode_loop : List Nat → Option (List Nat)
  | c :: c1 :: c2 :: rest =>
    if c = 37 then
      match sscanf_2x (c1 :: c2 :: rest), url_decode_loop rest with
      | some hex_val, some decoded => some (int_to_char hex_val :: decoded)
      | _, _ => none
    else (url_decode_loop (c1 :: c2 :: rest)).map (fun decoded => c :: decoded)
  | c :: rest => (url_decode_loop rest).map (fun decoded => c :: decoded)
  | [] => some []

/-- The function `url_decode` of server.c on the string `src`: the string the
returned `char *` denotes, that is the decoded bytes up to the terminator
written at `decoded[decoded_len]` or to an earlier zero byte. -/
def url_decode (src : List Nat) : Option (List Nat) :=
  (url_decode_loop src).map cstr

/-- An encoding `e` of the byte sequence `s`: every byte of `s` is written
either as itself (never the byte `%`) or as `%` and the two hexadecimal digits
of its value, upper or lower case. -/
inductive Encodes : List Nat → List Nat → Prop
  | nil : Encodes [] []
  | lit (b : Nat) (s e : List Nat) : b ≠ 37 → Encodes s e → Encodes (b :: s) (b :: e)
  | esc (b h1 h2 : Nat) (s e : List Nat) : hexval h1 = some (b / 16) →
      hexval h2 = some (b % 16) → Encodes s e → Encodes (b :: s) (37 :: h1 :: h2 :: e)

/-! ## The request-line pattern (server.c 156-168) -/

/-- The constructs of POSIX extended regular expressions that the pattern of
`handle_client` uses. -/
inductive Atom
  | bol
  | lit (c : Nat)
  | notChar (c : Nat)
  | starNot (c : Nat)
  | groupOpen
  | groupClose
  deriving DecidableEq, Repr

/-- The call `regcomp(&regex, pattern, REG_EXTENDED)` for patterns made of
`^`, one-character bracket expressions `[^c]`, a `*` after such an expression,
parentheses and ordinary characters; `none` for any other pattern. -/
def regcomp : List Nat → Option (List Atom)
  | [] => some []
  | c :: rest =>
    if c = 94 then (regcomp rest).map (fun r => Atom.bol :: r)
    else if c = 40 then (regcomp rest).map (fun r => Atom.groupOpen :: r)
    else if c = 41 then (regcomp rest).map (fun r => Atom.groupClose :: r)
    else if c = 91 then
      match rest with
      | c1 :: x :: c2 :: c3 :: rest4 =>
        if c1 = 94 ∧ c2 = 93 ∧ x ≠ 93 then
          if c3 = 42 then (regcomp rest4).map (fun r => Atom.starNot x :: r)
          else (regcomp (c3 :: rest4)).map (fun r => Atom.notChar x :: r)
        else none
      | [c1, x, c2] =>
        if c1 = 94 ∧ c2 = 93 ∧ x ≠ 93 then some [Atom.notChar x] else none
      | _ => none
    else if c = 42 ∨ c = 43 ∨ c = 63 ∨ c = 123 ∨ c = 124 ∨ c = 92 ∨ c = 46 ∨ c = 36 then none
    else (regcomp rest).map (fun r => Atom.lit c :: r)

/-- The offsets `rm_so` and `rm_eo` of the one capture group, `none` while unset. -/
structure Capture where
  rm_so : Option Nat
  rm_eo : Option Nat
  deriving DecidableEq, Repr

/-- The greedy loop of `[^c]*` at offset `pos`: takes the longest run of bytes
other than `c` for which the rest of the pattern `k` matches. -/
def match_star (c : Nat) (k : List Nat → Nat → Option Capture) :
    List Nat → Nat → Option Capture
  | [], pos => k [] pos
  | x :: xs, pos =>
    if x ≠ c then
      match match_star c k xs (pos + 1) with
      | some r => some r
      | none => k (x :: xs) pos
    else k (x :: xs) pos

/-- Matches the compiled pattern against the input at offset `pos`; the
result is the capture group of the match. -/
def match_here : List Atom → Capture → List Nat → Nat → Option Capture
  | [], cap, _, _ => some cap
  | Atom.bol :: re, cap, input, pos =>
    if pos = 0 then match_here re cap input pos else none
  | Atom.lit c :: re, cap, input, pos =>
    match input with
    | x :: xs => if x = c then match_here re cap xs (pos + 1) else none
    | [] => none
  | Atom.notChar c :: re, cap, input, pos =>
    match input with
    | x :: xs => if x ≠ c then match_here re cap xs (pos + 1) else none
    | [] => none
  | Atom.starNot c :: re, cap, input, pos =>
    match_star c (fun inp p => match_here re cap inp p) input pos
  | Atom.groupOpen :: re, cap, input, pos =>
    match_here re { cap with rm_so := some pos } input pos
  | Atom.groupClose :: re, cap, input, pos =>
    match_here re { cap with rm_eo := some pos } input pos

/-- The search of `regexec` from offset `pos`: the leftmost offset where the
pattern matches. -/
def regexec_from (re : List Atom) : List Nat → Nat → Option Capture
  | [], pos => match_here re ⟨none, none⟩ [] pos
  | x :: xs, pos =>
    match match_here re ⟨none, none⟩ (x :: xs) pos with
    | some r => some r
    | none => regexec_from re xs (pos + 1)

/-- The call `regexec(&regex, buffer, 2, matches, 0) == 0`, with `matches[1]`
on success.  The subject is the string at `buffer`: the search reads the
bytes before the first NUL and nothing after it. -/
def regexec (re : List Atom) (buffer : List Nat) : Option Capture :=
  regexec_from re (cstr buffer) 0

/-- The pattern string of `handle_client`. -/
def request_pattern : List Nat := bytes "^GET /([^ ]*) HTTP/1"

/-- The compiled pattern of `handle_client`. -/
def request_regex : List Atom := (regcomp request_pattern).getD []

/-- The request-line match of `handle_client` and the string passed to
`url_decode`: the assignment `buffer[matches[1].rm_eo] = 0` puts a terminator
at offset `rm_eo`, and `url_encoded_file_name` is the string that starts at
`buffer + matches[1].rm_so`. -/
def matched_path (buffer : List Nat) : Option (List Nat) :=
  match regexec request_regex buffer with
  | some cap =>
    let rm_so := cap.rm_so.getD 0
    let rm_eo := cap.rm_eo.getD 0
    some (cstr ((buffer.take rm_eo ++ 0 :: buffer.drop (rm_eo + 1)).drop rm_so))
  | none => none

/-! ## build_http_response (server.c 39-81) -/

/-- The heap blocks of one connection: `buffer`, `file_name` and `response` of
`handle_client`, `header` of `build_http_response`, and `arg`, the block
`main` allocates for the descriptor. -/
inductive Buf
  | buffer
  | file_name
  | response
  | header
  | arg
  deriving DecidableEq, Repr

/-- What the code does to the world outside it, in program order. -/
inductive Event
  | malloc (b : Buf)
  | free (b : Buf)
  | recv
  | regcomp
  | regexec
  | regfree
  | open_file (file_name : List Nat) (opened : Bool)
  | fstat
  | read (count : Nat) (bytes_read : Nat)
  | close_file
  | send (data : List Nat)
  | close_client
  deriving DecidableEq, Repr

/-- The call `snprintf(buf, size, ...)` whose formatted text is `text`: the
string left in `buf`, at most `size - 1` bytes of the text. -/
def snprintf (size : Nat) (text : List Nat) : List Nat := text.take (size - 1)

/-- Subtraction of two `size_t` values (64 bits). -/
def size_sub (a b : Nat) : Nat := (a + 2 ^ 64 - b % 2 ^ 64) % 2 ^ 64

/-- The call `read(fd, buf, count)` on a regular file with `avail` bytes
after the file offset: 0 at end of file or for a count of 0, otherwise a
number of bytes from 1 to `min count avail`, chosen by `rd` (a short read is
allowed). -/
def read (rd : Nat → Nat) (count avail : Nat) : Nat :=
  if min count avail = 0 then 0 else max 1 (min (rd (min count avail)) (min count avail))

/-- The `while` loop `while ((bytes_read = read(file_fd, response +
*response_len, BUFFER_SIZE - *response_len)) > 0)`.  `file` is the part of
the file after the offset, `response` the bytes of the response buffer
written so far.  Each turn of the loop uses one unit of `fuel`; `none` when
the fuel ends before the loop does. -/
def read_loop (rd : Nat → Nat) :
    Nat → List Nat → List Nat → Nat → List Event → Option (List Nat × Nat × List Event)
  | 0, _, _, _, _ => none
  | fuel + 1, file, response, response_len, ev =>
    let count := size_sub BUFFER_SIZE response_len
    let bytes_read := read rd count file.length
    if bytes_read > 0 then
      read_loop rd fuel (file.drop bytes_read)
        (response.take response_len ++ file.take bytes_read)
        (response_len + bytes_read) (ev ++ [Event.read count bytes_read])
    else some (response, response_len, ev ++ [Event.read count bytes_read])

/-- What `build_http_response` leaves behind: the bytes it wrote to
`response`, `*response_len`, and its calls. -/
structure Built where
  response : List Nat
  response_len : Nat
  events : List Event
  deriving DecidableEq, Repr

/-- The text of the success header for a content type. -/
def header_text (mime_type : List Nat) : List Nat :=
  bytes "HTTP/1.1 200 OK\r\nContent-Type: " ++ mime_type ++ bytes "\r\n\r\n"

/-- The text of the not-found response. -/
def not_found_text : List Nat :=
  bytes "HTTP/1.1 404 Not Found\r\nContent-Type: text/plain\r\n\r\n404 Not Found"

/-- The function `build_http_response` of server.c.  `fs file_name` is the
outcome of `open(file_name, O_RDONLY)`: `none` for -1, otherwise the bytes of
the file.  The result is `none` only when the read loop does not end within
its fuel, the length of the file plus one. -/
def build_http_response (rd : Nat → Nat) (fs : List Nat → Option (List Nat))
    (file_name file_ext : List Nat) : Option Built :=
  let mime_type := get_mime_type file_ext
  let header := snprintf BUFFER_SIZE (header_text mime_type)
  match fs file_name with
  | none =>
    let response := snprintf BUFFER_SIZE not_found_text
    some { response := response, response_len := strlen response,
           events := [Event.malloc Buf.header, Event.open_file file_name false] }
  | some file =>
    let response := header.take (strlen header)
    let response_len := 0 + strlen header
    match read_loop rd (file.length + 1) file response response_len
        [Event.malloc Buf.header, Event.open_file file_name true, Event.fstat] with
    | none => none
    | some (response, response_len, ev) =>
      some { response := response, response_len := response_len,
             events := ev ++ [Event.free Buf.header, Event.close_file] }

/-! ## handle_client (server.c 145-192) -/

/-- Ways in which `handle_client` leaves the defined behaviour of C, or does
not return. -/
inductive Fault
  | bad_escape
  | ext_overflow
  | no_return
  deriving DecidableEq, Repr

/-- The outcome of `handle_client`: its calls up to the `return`, or a fault. -/
inductive Outcome
  | returned (trace : List Event)
  | fault (f : Fault)
  deriving DecidableEq, Repr

/-- The world around one call of `handle_client`: the value `recv` returns,
the bytes of the request buffer after `recv` (they may hold zero bytes; the
string functions stop at the first one), the files `open` finds, and how many
bytes each `read` transfers. -/
structure World where
  recv_ret : Int
  buffer : List Nat
  fs : List Nat → Option (List Nat)
  rd : Nat → Nat

/-- The conversion of the `ssize_t` that `recv` returns to the `size_t` of
`bytes_recieved` (64 bits). -/
def to_size_t (v : Int) : Nat := (v % 2 ^ 64).toNat

/-- The call `strcpy(dst, src)` for an array `dst` of `size` bytes: the string
copied, `none` when `src` and its terminator do not fit, a write past the
array. -/
def strcpy (size : Nat) (src : List Nat) : Option (List Nat) :=
  if src.length + 1 ≤ size then some src else none

/-- The function `handle_client` of server.c. -/
def handle_client (w : World) : Outcome :=
  let t0 := [Event.malloc Buf.buffer, Event.recv]
  let bytes_recieved := to_size_t w.recv_ret
  let closing := [Event.free Buf.buffer, Event.free Buf.arg, Event.close_client]
  if bytes_recieved > 0 then
    let t1 := t0 ++ [Event.regcomp, Event.regexec]
    match matched_path w.buffer with
    | some url_encoded_file_name =>
      match url_decode url_encoded_file_name with
      | none => Outcome.fault Fault.bad_escape
      | some file_name =>
        let t2 := t1 ++ [Event.malloc Buf.file_name]
        match strcpy 32 (get_file_extension file_name) with
        | none => Outcome.fault Fault.ext_overflow
        | some file_ext =>
          let t3 := t2 ++ [Event.malloc Buf.response]
          match build_http_response w.rd w.fs file_name file_ext with
          | none => Outcome.fault Fault.no_return
          | some b =>
            Outcome.returned (t3 ++ b.events ++
              [Event.send (b.response.take b.response_len),
               Event.free Buf.response, Event.free Buf.file_name, Event.regfree] ++ closing)
    | none => Outcome.returned (t1 ++ [Event.regfree] ++ closing)
  else Outcome.returned (t0 ++ closing)

/-- The content-type table as the specification words it: the extension,
compared without regard to case, against `html`/`htm`, `txt`, `jpg`/`jpeg`
and `png`, and `application/octet-stream` for anything else. -/
def spec_mime_type (ext : List Nat) : List Nat :=
  if eqIgnoreCase ext (bytes "html") || eqIgnoreCase ext (bytes "htm") then bytes "text/html"
  else if eqIgnoreCase ext (bytes "txt") then bytes "text/plain"
  else if eqIgnoreCase ext (bytes "jpg") || eqIgnoreCase ext (bytes "jpeg") then
    bytes "image/jpeg"
  else if eqIgnoreCase ext (bytes "png") then bytes "image/png"
  else bytes "application/octet-stream"

/-! ## Sample worlds -/

/-- A directory holding the one file `index.html`, with contents `<p>hi</p>`. -/
def sample_fs (file_name : List Nat) : Option (List Nat) :=
  if file_name = bytes "index.html" then some (bytes "<p>hi</p>") else none

/-- A connection on which `recv` delivered the request, with full reads. -/
def request_world (request : String) : World :=
  { recv_ret := request.length, buffer := bytes request, fs := sample_fs, rd := fun m => m }

/-- A connection on which `recv` failed with -1, the buffer holding `content`. -/
def recv_error_world (content : String) : World :=
  { recv_ret := -1, buffer := bytes content, fs := sample_fs, rd := fun m => m }

/-- The trace of an outcome, empty for a fault. -/
def Outcome.trace : Outcome → List Event
  | Outcome.returned t => t
  | Outcome.fault _ => []

/-! ## Proofs: get_mime_type -/

theorem sameLetter_iff (x y : Nat) : sameLetter x y = true ↔ tolower x = tolower y := by
  unfold sameLetter tolower
  simp only [Bool.or_eq_true, Bool.and_eq_true, beq_iff_eq, decide_eq_true_eq]
  split <;> split <;> omega

theorem eqIgnoreCase_iff (a b : List Nat) :
    eqIgnoreCase a b = true ↔ a.map tolower = b.map tolower := by
  induction a generalizing b with
  | nil => cases b <;> simp [eqIgnoreCase]
  | cons x xs ih =>
    cases b with
    | nil => simp [eqIgnoreCase]
    | cons y ys => simp [eqIgnoreCase, sameLetter_iff, ih]

theorem tolower_pos {c : Nat} (h : c ≠ 0) : tolower c ≠ 0 := by
  unfold tolower; split <;> omega

theorem strcasecmp_eq_zero_iff (a b : List Nat) (ha : CStr a) (hb : CStr b) :
    strcasecmp a b = 0 ↔ a.map tolower = b.map tolower := by
  induction a generalizing b with
  | nil =>
    cases b with
    | nil => simp [strcasecmp]
    | cons y ys =>
      have hy : tolower y ≠ 0 := tolower_pos (hb y (by simp))
      simp [strcasecmp]; omega
  | cons x xs ih =>
    have hx : tolower x ≠ 0 := tolower_pos (ha x (by simp))
    cases b with
    | nil => simp [strcasecmp]; omega
    | cons y ys =>
      have hxs : CStr xs := fun c hc => ha c (by simp [hc])
      have hys : CStr ys := fun c hc => hb c (by simp [hc])
      by_cases hxy : tolower x = tolower y
      · simp [strcasecmp, hxy, ih ys hxs hys]
      · simp [strcasecmp, hxy]; omega

theorem strcasecmp_eq_zero_iff_eqIgnoreCase (a b : List Nat) (ha : CStr a) (hb : CStr b) :
    strcasecmp a b = 0 ↔ eqIgnoreCase a b = true := by
  rw [strcasecmp_eq_zero_iff a b ha hb, eqIgnoreCase_iff]

theorem cstr_bytes_html : CStr (bytes "html") := by decide
theorem cstr_bytes_htm : CStr (bytes "htm") := by decide
theorem cstr_bytes_txt : CStr (bytes "txt") := by decide
theorem cstr_bytes_jpg : CStr (bytes "jpg") := by decide
theorem cstr_bytes_jpeg : CStr (bytes "jpeg") := by decide
theorem cstr_bytes_png : CStr (bytes "png") := by decide

/-- C6. For every extension string, `get_mime_type` is the table of the
specification read case-insensitively: `text/html` for html and htm,
`text/plain` for txt, `image/jpeg` for jpg and jpeg, `image/png` for png and
`application/octet-stream` for every other string, the empty one included. -/
theorem get_mime_type_table (file_ext : List Nat) (h : CStr file_ext) :
    get_mime_type file_ext = spec_mime_type file_ext ∧
    get_mime_type [] = bytes "application/octet-stream" := by
  refine ⟨?_, by decide⟩
  unfold get_mime_type spec_mime_type
  simp only [strcasecmp_eq_zero_iff_eqIgnoreCase file_ext _ h cstr_bytes_html,
    strcasecmp_eq_zero_iff_eqIgnoreCase file_ext _ h cstr_bytes_htm,
    strcasecmp_eq_zero_iff_eqIgnoreCase file_ext _ h cstr_bytes_txt,
    strcasecmp_eq_zero_iff_eqIgnoreCase file_ext _ h cstr_bytes_jpg,
    strcasecmp_eq_zero_iff_eqIgnoreCase file_ext _ h cstr_bytes_jpeg,
    strcasecmp_eq_zero_iff_eqIgnoreCase file_ext _ h cstr_bytes_png,
    Bool.or_eq_true]

/-- C6 at the extension `JpEg`. -/
theorem get_mime_type_table_witness :
    CStr (bytes "JpEg") ∧
    (get_mime_type (bytes "JpEg") = spec_mime_type (bytes "JpEg") ∧
     get_mime_type [] = bytes "application/octet-stream") ∧
    spec_mime_type (bytes "JpEg") = bytes "image/jpeg" :=
  ⟨by decide, get_mime_type_table (bytes "JpEg") (by decide), by decide⟩

/-! ## Proofs: get_file_extension -/

theorem strrchr_eq_none {s : List Nat} {c : Nat} (h : c ∉ s) : strrchr s c = none := by
  induction s with
  | nil => rfl
  | cons b rest ih =>
    simp only [List.mem_cons, not_or] at h
    have hb : ¬ b = c := fun e => h.1 e.symm
    simp [strrchr, ih h.2, hb]

theorem strrchr_append (front back : List Nat) (c : Nat) (h : c ∉ back) :
    strrchr (front ++ c :: back) c = some front.length := by
  induction front with
  | nil => simp [strrchr, strrchr_eq_none h]
  | cons b rest ih => simp [strrchr, ih]

/-- C7. `get_file_extension` gives the empty string when the name has no dot
or when its last dot is its first byte, and otherwise the bytes after the
last dot. -/
theorem get_file_extension_spec (file_name : List Nat) :
    (46 ∉ file_name → get_file_extension file_name = []) ∧
    (∀ t, file_name = 46 :: t → 46 ∉ t → get_file_extension file_name = []) ∧
    (∀ front ext, front ≠ [] → file_name = front ++ 46 :: ext → 46 ∉ ext →
      get_file_extension file_name = ext) := by
  refine ⟨?_, ?_, ?_⟩
  · intro h
    simp [get_file_extension, strrchr_eq_none h]
  · intro t ht hdot
    have := strrchr_append [] t 46 hdot
    simp only [List.nil_append, List.length_nil] at this
    simp [get_file_extension, ht, this]
  · intro front ext hfront hf hdot
    have hlen : front.length ≠ 0 := by
      intro h0; exact hfront (List.length_eq_zero.mp h0)
    subst hf
    simp [get_file_extension, strrchr_append front ext 46 hdot, hlen]

/-- C7 at `a.txt`, `.bashrc` and `noext`. -/
theorem get_file_extension_spec_witness :
    get_file_extension (bytes "a.txt") = bytes "txt" ∧
    get_file_extension (bytes ".bashrc") = [] ∧
    get_file_extension (bytes "noext") = [] :=
  ⟨(get_file_extension_spec (bytes "a.txt")).2.2 (bytes "a") (bytes "txt")
      (by decide) (by decide) (by decide),
   (get_file_extension_spec (bytes ".bashrc")).2.1 (bytes "bashrc") (by decide) (by decide),
   (get_file_extension_spec (bytes "noext")).1 (by decide)⟩

/-! ## Proofs: url_decode -/

theorem cstr_of_CStr {s : List Nat} (h : CStr s) : cstr s = s := by
  unfold cstr
  rw [List.takeWhile_eq_self_iff]
  intro b hb
  simpa using h b hb

theorem url_decode_loop_cons_of_ne (c : Nat) (rest : List Nat) (hc : c ≠ 37) :
    url_decode_loop (c :: rest) = (url_decode_loop rest).map (fun decoded => c :: decoded) := by
  match rest with
  | [] => simp [url_decode_loop]
  | [c1] => simp [url_decode_loop]
  | c1 :: c2 :: rest2 => simp [url_decode_loop, hc]

theorem url_decode_loop_cons_short (c : Nat) (rest : List Nat) (h : rest.length < 2) :
    url_decode_loop (c :: rest) = (url_decode_loop rest).map (fun decoded => c :: decoded) := by
  match rest, h with
  | [], _ => simp [url_decode_loop]
  | [c1], _ => simp [url_decode_loop]
  | c1 :: c2 :: rest2, h => simp at h; omega

theorem hexval_some {c d : Nat} (h : hexval c = some d) :
    d < 16 ∧ isspace c = false ∧ c ≠ 43 ∧ c ≠ 45 := by
  unfold hexval at h
  unfold isspace
  split at h
  · simp only [Option.some.injEq] at h
    simp only [Bool.or_eq_false_iff, beq_eq_false_iff_ne, Bool.and_eq_false_iff,
      decide_eq_false_iff_not]
    omega
  · split at h
    · simp only [Option.some.injEq] at h
      simp only [Bool.or_eq_false_iff, beq_eq_false_iff_ne, Bool.and_eq_false_iff,
        decide_eq_false_iff_not]
      omega
    · split at h
      · simp only [Option.some.injEq] at h
        simp only [Bool.or_eq_false_iff, beq_eq_false_iff_ne, Bool.and_eq_false_iff,
          decide_eq_false_iff_not]
        omega
      · simp at h

theorem sscanf_2x_two_digits (h1 h2 d1 d2 : Nat) (rest : List Nat)
    (e1 : hexval h1 = some d1) (e2 : hexval h2 = some d2) :
    sscanf_2x (h1 :: h2 :: rest) = some ((16 * d1 + d2 : Nat) : Int) := by
  obtain ⟨_, hsp, hplus, hminus⟩ := hexval_some e1
  simp [sscanf_2x, List.dropWhile, hsp, scan_hex_item, hplus, hminus, e1, e2]

theorem url_decode_loop_encodes {s e : List Nat} (h : Encodes s e) :
    url_decode_loop e = some s := by
  induction h with
  | nil => rfl
  | lit b s e hb _ ih => rw [url_decode_loop_cons_of_ne b e hb, ih]; rfl
  | esc b h1 h2 s e e1 e2 _ ih =>
    have hlt := (hexval_some e1).1
    have hval : int_to_char (16 * ((b : Int) / 16) + (b : Int) % 16) = b := by
      unfold int_to_char
      omega
    simp [url_decode_loop, sscanf_2x_two_digits h1 h2 _ _ e e1 e2, ih, hval]

/-- C4, amended. For every byte sequence `s` without a zero byte and every
encoding `e` of `s` that writes each byte either as itself (never `%`) or as
`%` and the two hexadecimal digits of its value, `url_decode e` is `s`. -/
theorem url_decode_round_trip (s e : List Nat) (henc : Encodes s e) (hs : CStr s) :
    url_decode e = some s := by
  simp [url_decode, url_decode_loop_encodes henc, cstr_of_CStr hs]

/-- C4 at `a b%` written as `a%20b%25`. -/
theorem url_decode_round_trip_witness :
    Encodes (bytes "a b%") (bytes "a%20b%25") ∧ CStr (bytes "a b%") ∧
    url_decode (bytes "a%20b%25") = some (bytes "a b%") :=
  have henc : Encodes (bytes "a b%") (bytes "a%20b%25") :=
    Encodes.lit 97 _ _ (by decide)
      (Encodes.esc 32 50 48 _ _ (by decide) (by decide)
        (Encodes.lit 98 _ _ (by decide)
          (Encodes.esc 37 50 53 _ _ (by decide) (by decide) Encodes.nil)))
  ⟨henc, by decide, url_decode_round_trip _ _ henc (by decide)⟩

/-- C4 as stated fails: the one-byte sequence holding the zero byte, written
`%00`, decodes to the empty string. -/
theorem url_decode_round_trip_nul :
    Encodes [0] (bytes "%00") ∧ url_decode (bytes "%00") = some [] ∧
    url_decode (bytes "%00") ≠ some [0] :=
  ⟨Encodes.esc 0 48 48 _ _ (by decide) (by decide) Encodes.nil, by decide, by decide⟩

theorem url_decode_loop_no_escape (src : List Nat)
    (h : ∀ i < src.length, src[i]? = some 37 → src.length ≤ i + 2) :
    url_decode_loop src = some src := by
  induction src with
  | nil => rfl
  | cons c rest ih =>
    have hrest : ∀ i < rest.length, rest[i]? = some 37 → rest.length ≤ i + 2 := by
      intro i hlt hi
      have := h (i + 1) (by simpa using hlt) (by simpa using hi)
      simpa using this
    by_cases hlen : rest.length < 2
    · rw [url_decode_loop_cons_short c rest hlen, ih hrest]; rfl
    · have hc : c ≠ 37 := by
        intro hc
        have := h 0 (by simp) (by simp [hc])
        simp at this
        omega
      rw [url_decode_loop_cons_of_ne c rest hc, ih hrest]; rfl

/-- C5. For every string in which `%` stands only where fewer than two bytes
follow it, `url_decode` returns a result and the result is the input,
unchanged. -/
theorem url_decode_unterminated (src : List Nat) (hsrc : CStr src)
    (h : ∀ i < src.length, src[i]? = some 37 → src.length ≤ i + 2) :
    url_decode src = some src := by
  simp [url_decode, url_decode_loop_no_escape src h, cstr_of_CStr hsrc]

/-- C5 at `ab%4`, where one byte follows the `%`, and at `ab%` and `abc`. -/
theorem url_decode_unterminated_witness :
    CStr (bytes "ab%4") ∧
    (∀ i < (bytes "ab%4").length, (bytes "ab%4")[i]? = some 37 →
      (bytes "ab%4").length ≤ i + 2) ∧
    url_decode (bytes "ab%4") = some (bytes "ab%4") ∧
    url_decode (bytes "ab%") = some (bytes "ab%") ∧
    url_decode (bytes "abc") = some (bytes "abc") :=
  ⟨by decide, by decide,
   url_decode_unterminated (bytes "ab%4") (by decide) (by decide),
   url_decode_unterminated (bytes "ab%") (by decide) (by decide),
   url_decode_unterminated (bytes "abc") (by decide) (by decide)⟩

/-! ## Proofs: the request-line match -/

theorem match_here_lit_cons (c : Nat) (re : List Atom) (cap : Capture) (x : Nat)
    (xs : List Nat) (pos : Nat) :
    match_here (Atom.lit c :: re) cap (x :: xs) pos =
      if x = c then match_here re cap xs (pos + 1) else none := by
  simp only [match_here]

theorem match_here_lits_append (l : List Nat) (re : List Atom) (cap : Capture)
    (rest : List Nat) (pos : Nat) :
    match_here (l.map Atom.lit ++ re) cap (l ++ rest) pos =
      match_here re cap rest (pos + l.length) := by
  induction l generalizing pos with
  | nil => rfl
  | cons c l ih =>
    have hpos : pos + 1 + l.length = pos + (l.length + 1) := by omega
    rw [List.map_cons, List.cons_append, List.cons_append, match_here_lit_cons, if_pos rfl, ih,
      List.length_cons, hpos]

theorem match_here_lits_some (l : List Nat) (re : List Atom) (cap r : Capture)
    (input : List Nat) (pos : Nat)
    (h : match_here (l.map Atom.lit ++ re) cap input pos = some r) :
    ∃ rest, input = l ++ rest ∧ match_here re cap rest (pos + l.length) = some r := by
  induction l generalizing input pos with
  | nil => exact ⟨input, rfl, h⟩
  | cons c l ih =>
    cases input with
    | nil => simp [match_here] at h
    | cons x xs =>
      rw [List.map_cons, List.cons_append, match_here_lit_cons] at h
      by_cases hx : x = c
      · rw [if_pos hx] at h
        obtain ⟨rest, hrest, hm⟩ := ih xs (pos + 1) h
        refine ⟨rest, by rw [hx, hrest]; rfl, ?_⟩
        have hpos : pos + (l.length + 1) = pos + 1 + l.length := by omega
        rw [← hm, List.length_cons, hpos]
      · rw [if_neg hx] at h
        exact absurd h (by simp)

theorem match_star_eq (c : Nat) (k : List Nat → Nat → Option Capture)
    (hk : ∀ x xs pos, x ≠ c → k (x :: xs) pos = none) (input : List Nat) (pos : Nat) :
    match_star c k input pos =
      k (input.dropWhile (fun x => x != c))
        (pos + (input.takeWhile (fun x => x != c)).length) := by
  induction input generalizing pos with
  | nil => simp [match_star]
  | cons x xs ih =>
    by_cases hx : x = c
    · simp [match_star, hx]
    · have hne : (x != c) = true := by simpa using hx
      have hpos : pos + 1 + (List.takeWhile (fun x => x != c) xs).length =
          pos + ((List.takeWhile (fun x => x != c) xs).length + 1) := by omega
      rw [match_star, if_pos hx, ih (pos + 1), hk x xs pos hx]
      simp only [List.dropWhile_cons, List.takeWhile_cons, hne, if_true, List.length_cons, hpos]
      cases k (List.dropWhile (fun x => x != c) xs)
        (pos + ((List.takeWhile (fun x => x != c) xs).length + 1)) <;> rfl

theorem regexec_from_bol_pos (re : List Atom) (input : List Nat) (pos : Nat) (hpos : 0 < pos) :
    regexec_from (Atom.bol :: re) input pos = none := by
  induction input generalizing pos with
  | nil => simp [regexec_from, match_here]; omega
  | cons x xs ih =>
    have h0 : ¬ pos = 0 := by omega
    simp [regexec_from, match_here, h0, ih (pos + 1) (by omega)]

theorem regexec_bol (re : List Atom) (buffer : List Nat) :
    regexec_from (Atom.bol :: re) buffer 0 = match_here re ⟨none, none⟩ buffer 0 := by
  cases buffer with
  | nil => simp [regexec_from, match_here]
  | cons x xs =>
    simp only [regexec_from, match_here, if_true]
    rw [regexec_from_bol_pos re xs 1 (by omega)]
    cases match_here re ⟨none, none⟩ (x :: xs) 0 <;> rfl

theorem bytes_http : bytes " HTTP/1" = [32, 72, 84, 84, 80, 47, 49] := by decide

theorem bytes_get_length : (bytes "GET /").length = 5 := by decide

theorem cstr_append_zero (q tail : List Nat) (hq : ∀ a ∈ q, (a != 0) = true) :
    cstr (q ++ 0 :: tail) = q := by
  unfold cstr
  rw [List.takeWhile_append_of_pos hq]
  simp

theorem take_cstr (buffer : List Nat) (n : Nat) (h : n ≤ (cstr buffer).length) :
    buffer.take n = (cstr buffer).take n := by
  have hsplit := List.takeWhile_append_dropWhile (fun b => b != 0) buffer
  have htake : (List.takeWhile (fun b => b != 0) buffer ++
      List.dropWhile (fun b => b != 0) buffer).take n =
      (List.takeWhile (fun b => b != 0) buffer).take n :=
    List.take_append_of_le_length h
  rw [hsplit] at htake
  exact htake

/-- The string left at `buffer + 5` once a terminator is put after the path. -/
theorem path_of_buffer (buffer q tail : List Nat)
    (hc : cstr buffer = bytes "GET /" ++ (q ++ tail)) :
    cstr ((buffer.take (5 + q.length) ++ 0 :: buffer.drop (5 + q.length + 1)).drop 5) = q := by
  have hlen : 5 + q.length ≤ (cstr buffer).length := by
    rw [hc, List.length_append, List.length_append, bytes_get_length]
    omega
  have hq : ∀ a ∈ q, (a != 0) = true := by
    intro a ha
    have hmem : a ∈ cstr buffer := by
      rw [hc]
      exact List.mem_append_right _ (List.mem_append_left _ ha)
    unfold cstr at hmem
    have hne := List.mem_takeWhile_imp hmem
    exact hne
  have htake : buffer.take (5 + q.length) = bytes "GET /" ++ q := by
    rw [take_cstr buffer _ hlen, hc, ← bytes_get_length, List.take_append, List.take_left]
  rw [htake, List.append_assoc, List.drop_left' bytes_get_length, cstr_append_zero q _ hq]

theorem request_regex_eq :
    request_regex = Atom.bol :: ((bytes "GET /").map Atom.lit ++
      Atom.groupOpen :: Atom.starNot 32 :: Atom.groupClose ::
        ((bytes " HTTP/1").map Atom.lit ++ [])) := by
  decide

/-- The match of the pattern after the literal `GET /`: the longest run of
non-space bytes, then ` HTTP/1`. -/
theorem match_here_after_get (r1 : List Nat) :
    match_here (Atom.groupOpen :: Atom.starNot 32 :: Atom.groupClose ::
        ((bytes " HTTP/1").map Atom.lit ++ [])) ⟨none, none⟩ r1 5 =
      match_here ((bytes " HTTP/1").map Atom.lit ++ [])
        ⟨some 5, some (5 + (r1.takeWhile (fun x => x != 32)).length)⟩
        (r1.dropWhile (fun x => x != 32))
        (5 + (r1.takeWhile (fun x => x != 32)).length) := by
  rw [match_here, match_here, match_star_eq]
  · rw [match_here]
  · intro x xs pos hx
    rw [bytes_http, match_here]
    exact if_neg hx

theorem regexec_request (buffer : List Nat) (cap : Capture)
    (h : regexec_from request_regex buffer 0 = some cap) :
    ∃ r1 rest, buffer = bytes "GET /" ++ r1 ∧
      r1.dropWhile (fun x => x != 32) = bytes " HTTP/1" ++ rest ∧
      cap = ⟨some 5, some (5 + (r1.takeWhile (fun x => x != 32)).length)⟩ := by
  rw [request_regex_eq, regexec_bol] at h
  obtain ⟨r1, hr1, h1⟩ := match_here_lits_some _ _ _ _ _ _ h
  have h5 : 0 + (bytes "GET /").length = 5 := by decide
  rw [h5, match_here_after_get] at h1
  obtain ⟨rest, hrest, h2⟩ := match_here_lits_some _ _ _ _ _ _ h1
  simp only [match_here, Option.some.injEq] at h2
  exact ⟨r1, rest, hr1, hrest, h2.symm⟩

theorem regexec_request_of_form (q rest : List Nat) (hq : 32 ∉ q) :
    regexec_from request_regex (bytes "GET /" ++ q ++ bytes " HTTP/1" ++ rest) 0 =
      some ⟨some 5, some (5 + q.length)⟩ := by
  have hall : ∀ a ∈ q, (fun x => x != 32) a = true := by
    intro a ha
    have : a ≠ 32 := fun e => hq (e ▸ ha)
    simpa using this
  have hsp : bytes " HTTP/1" ++ rest = 32 :: ([72, 84, 84, 80, 47, 49] ++ rest) := by
    rw [bytes_http]; rfl
  have htw : (q ++ (bytes " HTTP/1" ++ rest)).takeWhile (fun x => x != 32) = q := by
    rw [List.takeWhile_append_of_pos hall, hsp]
    simp
  have hdw : (q ++ (bytes " HTTP/1" ++ rest)).dropWhile (fun x => x != 32) =
      bytes " HTTP/1" ++ rest := by
    rw [List.dropWhile_append_of_pos hall, hsp]
    simp
  have h5 : 0 + (bytes "GET /").length = 5 := by decide
  rw [request_regex_eq, regexec_bol, List.append_assoc, List.append_assoc,
    match_here_lits_append, h5, match_here_after_get, htw, hdw, match_here_lits_append]
  simp [match_here]

/-- The request-line match yields the path `q` exactly when the string in the
buffer is `GET /`, `q`, ` HTTP/1` and anything, with no space in `q`. -/
theorem matched_path_eq_some_iff (buffer q : List Nat) :
    matched_path buffer = some q ↔
      (32 ∉ q ∧ ∃ rest, cstr buffer = bytes "GET /" ++ q ++ bytes " HTTP/1" ++ rest) := by
  constructor
  · intro h
    unfold matched_path regexec at h
    cases hre : regexec_from request_regex (cstr buffer) 0 with
    | none => rw [hre] at h; exact absurd h (by simp)
    | some cap =>
      rw [hre] at h
      obtain ⟨r1, rest, hbuf, hdrop, hcap⟩ := regexec_request (cstr buffer) cap hre
      have hsplit := List.takeWhile_append_dropWhile (fun x => x != 32) r1
      have hq : q = r1.takeWhile (fun x => x != 32) := by
        simp only [Option.some.injEq] at h
        rw [← h, hcap]
        simp only [Option.getD_some]
        apply path_of_buffer buffer _ (r1.dropWhile (fun x => x != 32))
        rw [hsplit, hbuf]
      refine ⟨?_, rest, ?_⟩
      · intro hmem
        rw [hq] at hmem
        have := List.mem_takeWhile_imp hmem
        simp at this
      · rw [hbuf, hq, List.append_assoc, List.append_assoc, ← hdrop, hsplit]
  · rintro ⟨hq, rest, hbuf⟩
    unfold matched_path regexec
    rw [hbuf, regexec_request_of_form q rest hq]
    simp only [Option.getD_some, Option.some.injEq]
    apply path_of_buffer buffer q (bytes " HTTP/1" ++ rest)
    rw [hbuf, List.append_assoc, List.append_assoc]

/-- For a request buffer without a zero byte the string matched is the whole
buffer. -/
theorem matched_path_of_CStr (buffer q : List Nat) (hbuf : CStr buffer) :
    matched_path buffer = some q ↔
      (32 ∉ q ∧ ∃ rest, buffer = bytes "GET /" ++ q ++ bytes " HTTP/1" ++ rest) := by
  rw [matched_path_eq_some_iff, cstr_of_CStr hbuf]

/-- C3, amended. For every request buffer, the request-line match of
`handle_client` is made on the string the buffer holds, its bytes before the
first zero byte: it succeeds with the path `q`, the string handed to
`url_decode`, exactly when that string is `GET /`, then `q`, then ` HTTP/1`,
then anything, with no space in `q`; so it fails for every string not of this
form.  `GET /foo.txt HTTP/1.1` gives `foo.txt`, `GET / HTTP/1.1` the empty
path, and `POST / HTTP/1.1` no match. -/
theorem matched_path_iff (buffer q : List Nat) :
    (matched_path buffer = some q ↔
      (32 ∉ q ∧ ∃ rest, cstr buffer = bytes "GET /" ++ q ++ bytes " HTTP/1" ++ rest)) ∧
    matched_path (bytes "GET /foo.txt HTTP/1.1\r\nHost: a\r\n\r\n") = some (bytes "foo.txt") ∧
    matched_path (bytes "GET / HTTP/1.1\r\n\r\n") = some [] ∧
    matched_path (bytes "POST / HTTP/1.1\r\n\r\n") = none :=
  ⟨matched_path_eq_some_iff buffer q, by decide, by decide, by decide⟩

/-- C3 as stated fails: the request `GET /a`, a zero byte, `b HTTP/1.1` is
`GET /`, a path without a space, ` HTTP/1` and a rest, yet the match, which
stops reading at the zero byte, fails and `handle_client` sends nothing. -/
theorem matched_path_nul :
    32 ∉ [97, 0, 98] ∧
    bytes "GET /a" ++ 0 :: bytes "b HTTP/1.1\r\n\r\n" =
      bytes "GET /" ++ [97, 0, 98] ++ bytes " HTTP/1" ++ bytes ".1\r\n\r\n" ∧
    matched_path (bytes "GET /a" ++ 0 :: bytes "b HTTP/1.1\r\n\r\n") = none ∧
    handle_client ⟨21, bytes "GET /a" ++ 0 :: bytes "b HTTP/1.1\r\n\r\n", sample_fs,
        fun m => m⟩ = Outcome.returned
      [Event.malloc Buf.buffer, Event.recv, Event.regcomp, Event.regexec, Event.regfree,
       Event.free Buf.buffer, Event.free Buf.arg, Event.close_client] := by
  refine ⟨by decide, by decide, by decide, by decide⟩

/-! ## Proofs: build_http_response -/

theorem size_sub_buffer (n : Nat) (h : n ≤ BUFFER_SIZE) :
    size_sub BUFFER_SIZE n = BUFFER_SIZE - n := by
  unfold size_sub BUFFER_SIZE at *
  omega

theorem read_le (rd : Nat → Nat) (count avail : Nat) :
    read rd count avail ≤ min count avail := by
  unfold read
  split <;> omega

theorem read_eq_zero (rd : Nat → Nat) (count avail : Nat) (h : ¬ read rd count avail > 0) :
    min count avail = 0 := by
  unfold read at h
  split at h <;> omega

theorem read_loop_eq (rd : Nat → Nat) (fuel : Nat) :
    ∀ (file response : List Nat) (response_len : Nat) (ev : List Event),
      response.length = response_len → response_len ≤ BUFFER_SIZE → file.length < fuel →
      ∃ ev2, read_loop rd fuel file response response_len ev =
        some (response ++ file.take (BUFFER_SIZE - response_len),
          response_len + min file.length (BUFFER_SIZE - response_len), ev2) := by
  induction fuel with
  | zero => intro file response response_len ev _ _ h; omega
  | succ fuel ih =>
    intro file response response_len ev hlen hle hfuel
    rw [read_loop]
    simp only [size_sub_buffer response_len hle]
    have hread := read_le rd (BUFFER_SIZE - response_len) file.length
    by_cases hn : read rd (BUFFER_SIZE - response_len) file.length > 0
    · rw [if_pos hn]
      generalize read rd (BUFFER_SIZE - response_len) file.length = n at hn hread
      have htake : (file.take n).length = n := by
        rw [List.length_take]; omega
      have hresp : response.take response_len = response := by
        rw [← hlen, List.take_length]
      obtain ⟨ev2, h2⟩ := ih (file.drop n) (response.take response_len ++ file.take n)
        (response_len + n) (ev ++ [Event.read (BUFFER_SIZE - response_len) n])
        (by rw [List.length_append, htake, hresp, hlen]) (by omega)
        (by rw [List.length_drop]; omega)
      refine ⟨ev2, ?_⟩
      rw [h2, hresp, List.append_assoc, List.length_drop]
      have hk : BUFFER_SIZE - response_len = n + (BUFFER_SIZE - (response_len + n)) := by omega
      have hmin : response_len + n + min (file.length - n) (BUFFER_SIZE - (response_len + n)) =
          response_len + min file.length (BUFFER_SIZE - response_len) := by omega
      have htk : file.take (BUFFER_SIZE - response_len) =
          file.take n ++ (file.drop n).take (BUFFER_SIZE - (response_len + n)) := by
        conv_lhs => rw [hk, List.take_add]
      rw [hmin, htk]
    · rw [if_neg hn]
      have hz := read_eq_zero rd _ _ hn
      refine ⟨ev ++ [Event.read (BUFFER_SIZE - response_len)
        (read rd (BUFFER_SIZE - response_len) file.length)], ?_⟩
      have htk : file.take (BUFFER_SIZE - response_len) = [] := by
        rw [List.take_eq_nil_iff]
        rcases Nat.min_eq_zero_iff.mp hz with h | h
        · exact Or.inl h
        · exact Or.inr (List.length_eq_zero.mp h)
      rw [htk, List.append_nil]
      have hm : min file.length (BUFFER_SIZE - response_len) = 0 := by omega
      rw [hm, Nat.add_zero]
theorem get_mime_type_cases (file_ext : List Nat) :
    get_mime_type file_ext = bytes "text/html" ∨ get_mime_type file_ext = bytes "text/plain" ∨
    get_mime_type file_ext = bytes "image/jpeg" ∨ get_mime_type file_ext = bytes "image/png" ∨
    get_mime_type file_ext = bytes "application/octet-stream" := by
  unfold get_mime_type
  split
  · exact Or.inl rfl
  · split
    · exact Or.inr (Or.inl rfl)
    · split
      · exact Or.inr (Or.inr (Or.inl rfl))
      · split
        · exact Or.inr (Or.inr (Or.inr (Or.inl rfl)))
        · exact Or.inr (Or.inr (Or.inr (Or.inr rfl)))

/-- The success header is written whole by `snprintf`, has no zero byte, and
is at most 59 bytes long. -/
theorem header_facts (file_ext : List Nat) :
    snprintf BUFFER_SIZE (header_text (get_mime_type file_ext)) =
      header_text (get_mime_type file_ext) ∧
    strlen (header_text (get_mime_type file_ext)) =
      (header_text (get_mime_type file_ext)).length ∧
    (header_text (get_mime_type file_ext)).length ≤ 59 := by
  rcases get_mime_type_cases file_ext with h | h | h | h | h <;> rw [h] <;> decide

theorem build_http_response_opened (rd : Nat → Nat) (fs : List Nat → Option (List Nat))
    (file_name file_ext file : List Nat) (hopen : fs file_name = some file) :
    ∃ b, build_http_response rd fs file_name file_ext = some b ∧
      b.response = header_text (get_mime_type file_ext) ++
        file.take (BUFFER_SIZE - (header_text (get_mime_type file_ext)).length) ∧
      b.response_len = (header_text (get_mime_type file_ext)).length +
        min file.length (BUFFER_SIZE - (header_text (get_mime_type file_ext)).length) := by
  obtain ⟨hsn, hstr, hlen⟩ := header_facts file_ext
  have hbuf : (header_text (get_mime_type file_ext)).length ≤ BUFFER_SIZE := by
    unfold BUFFER_SIZE; omega
  obtain ⟨ev2, h2⟩ := read_loop_eq rd (file.length + 1) file
    (header_text (get_mime_type file_ext)) (header_text (get_mime_type file_ext)).length
    [Event.malloc Buf.header, Event.open_file file_name true, Event.fstat] rfl hbuf (by omega)
  unfold build_http_response
  simp only [hopen, hsn, hstr, Nat.zero_add, List.take_length, h2]
  exact ⟨_, rfl, rfl, rfl⟩

/-- C1, amended. For every file that opens and whose contents `file` fit,
after the header, in `BUFFER_SIZE` bytes, and for every extension,
`build_http_response` returns with the response holding exactly the header
`HTTP/1.1 200 OK`, `Content-Type:` and the type of the extension, followed
by the whole file, and with `response_len` the header length plus the file
length; this for every way `read` splits the file. -/
theorem build_http_response_ok (rd : Nat → Nat) (fs : List Nat → Option (List Nat))
    (file_name file_ext file : List Nat) (hopen : fs file_name = some file)
    (hfit : (bytes "HTTP/1.1 200 OK\r\nContent-Type: " ++ get_mime_type file_ext ++
      bytes "\r\n\r\n").length + file.length ≤ BUFFER_SIZE) :
    ∃ b, build_http_response rd fs file_name file_ext = some b ∧
      b.response = bytes "HTTP/1.1 200 OK\r\nContent-Type: " ++ get_mime_type file_ext ++
        bytes "\r\n\r\n" ++ file ∧
      b.response_len = (bytes "HTTP/1.1 200 OK\r\nContent-Type: " ++ get_mime_type file_ext ++
        bytes "\r\n\r\n").length + file.length := by
  obtain ⟨b, hb, hresp, hlen⟩ := build_http_response_opened rd fs file_name file_ext file hopen
  change (header_text (get_mime_type file_ext)).length + file.length ≤ BUFFER_SIZE at hfit
  refine ⟨b, hb, ?_, ?_⟩
  · rw [hresp, List.take_of_length_le (by omega)]
    rfl
  · rw [hlen, Nat.min_eq_left (by omega)]
    rfl

/-- C1 at `index.html` holding `<p>hi</p>`, read two bytes at a time. -/
theorem build_http_response_ok_witness :
    (fun n => if n = bytes "index.html" then some (bytes "<p>hi</p>") else none)
      (bytes "index.html") = some (bytes "<p>hi</p>") ∧
    (bytes "HTTP/1.1 200 OK\r\nContent-Type: " ++ get_mime_type (bytes "html") ++
      bytes "\r\n\r\n").length + (bytes "<p>hi</p>").length ≤ BUFFER_SIZE ∧
    ∃ b, build_http_response (fun _ => 2)
        (fun n => if n = bytes "index.html" then some (bytes "<p>hi</p>") else none)
        (bytes "index.html") (bytes "html") = some b ∧
      b.response = bytes "HTTP/1.1 200 OK\r\nContent-Type: " ++ get_mime_type (bytes "html") ++
        bytes "\r\n\r\n" ++ bytes "<p>hi</p>" ∧
      b.response_len = (bytes "HTTP/1.1 200 OK\r\nContent-Type: " ++
        get_mime_type (bytes "html") ++ bytes "\r\n\r\n").length + (bytes "<p>hi</p>").length :=
  ⟨by decide, by decide,
   build_http_response_ok (fun _ => 2)
     (fun n => if n = bytes "index.html" then some (bytes "<p>hi</p>") else none)
     (bytes "index.html") (bytes "html") (bytes "<p>hi</p>") (by decide) (by decide)⟩

/-- C1 as stated fails: a file of exactly `BUFFER_SIZE` bytes, within the
stated bound, opens, and the response stops at `BUFFER_SIZE` bytes in all, so
the last 59 bytes of the file are not in it. -/
theorem build_http_response_truncates :
    (List.replicate BUFFER_SIZE 97).length ≤ BUFFER_SIZE ∧
    ∃ b, build_http_response (fun m => m) (fun _ => some (List.replicate BUFFER_SIZE 97))
        (bytes "big.bin") (bytes "bin") = some b ∧
      b.response_len = BUFFER_SIZE ∧
      b.response_len ≠ (bytes "HTTP/1.1 200 OK\r\nContent-Type: " ++
        get_mime_type (bytes "bin") ++ bytes "\r\n\r\n").length +
        (List.replicate BUFFER_SIZE 97).length ∧
      b.response ≠ bytes "HTTP/1.1 200 OK\r\nContent-Type: " ++
        get_mime_type (bytes "bin") ++ bytes "\r\n\r\n" ++ List.replicate BUFFER_SIZE 97 := by
  obtain ⟨b, hb, hresp, hlen⟩ := build_http_response_opened (fun m => m)
    (fun _ => some (List.replicate BUFFER_SIZE 97)) (bytes "big.bin") (bytes "bin")
    (List.replicate BUFFER_SIZE 97) rfl
  have hh : (header_text (get_mime_type (bytes "bin"))).length = 59 := by decide
  have hh2 : (bytes "HTTP/1.1 200 OK\r\nContent-Type: " ++
      get_mime_type (bytes "bin") ++ bytes "\r\n\r\n").length = 59 := hh
  have hrl : b.response_len = BUFFER_SIZE := by
    rw [hlen, hh, List.length_replicate]
    unfold BUFFER_SIZE
    omega
  refine ⟨by rw [List.length_replicate], b, hb, hrl, ?_, ?_⟩
  · rw [hrl, hh2, List.length_replicate]
    omega
  · intro h
    have hl := congrArg List.length h
    rw [hresp, List.length_append, List.length_append, List.length_take, hh, hh2,
      List.length_replicate] at hl
    unfold BUFFER_SIZE at hl
    omega

/-- C2. For every file name whose `open` fails and every extension,
`build_http_response` leaves exactly the 65 bytes of the not-found response,
reports the length 65, and makes no `read` call. -/
theorem build_http_response_not_found (rd : Nat → Nat) (fs : List Nat → Option (List Nat))
    (file_name file_ext : List Nat) (hopen : fs file_name = none) :
    ∃ b, build_http_response rd fs file_name file_ext = some b ∧
      b.response =
        bytes "HTTP/1.1 404 Not Found\r\nContent-Type: text/plain\r\n\r\n404 Not Found" ∧
      b.response.length = 65 ∧ b.response_len = 65 ∧
      ∀ count n, Event.read count n ∉ b.events := by
  have hsn : snprintf BUFFER_SIZE not_found_text = not_found_text := by decide
  have hlen : strlen not_found_text = 65 := by decide
  unfold build_http_response
  simp only [hopen, hsn, hlen]
  have hlen2 : not_found_text.length = 65 := by decide
  refine ⟨_, rfl, rfl, hlen2, rfl, ?_⟩
  intro count n hmem
  simp at hmem

/-- C2 at the missing file `missing.xyz`. -/
theorem build_http_response_not_found_witness :
    (fun _ => none : List Nat → Option (List Nat)) (bytes "missing.xyz") = none ∧
    ∃ b, build_http_response (fun m => m) (fun _ => none) (bytes "missing.xyz") (bytes "xyz") =
        some b ∧
      b.response =
        bytes "HTTP/1.1 404 Not Found\r\nContent-Type: text/plain\r\n\r\n404 Not Found" ∧
      b.response.length = 65 ∧ b.response_len = 65 ∧
      ∀ count n, Event.read count n ∉ b.events :=
  ⟨rfl, build_http_response_not_found (fun m => m) (fun _ => none) (bytes "missing.xyz")
    (bytes "xyz") rfl⟩

/-! ## Proofs: handle_client -/

/-- The closing sequence when `recv` returns 0: nothing between `recv` and the
release of the buffer. -/
theorem handle_client_recv_zero (w : World) (h : w.recv_ret = 0) :
    handle_client w = Outcome.returned [Event.malloc Buf.buffer, Event.recv,
      Event.free Buf.buffer, Event.free Buf.arg, Event.close_client] := by
  unfold handle_client
  have h0 : to_size_t w.recv_ret = 0 := by rw [h]; decide
  simp [h0]

/-- C8, the failing case. When `recv` returns -1 the value stored in the
unsigned `bytes_recieved` is 2^64 - 1, the test `bytes_recieved > 0` passes,
and `handle_client` compiles and runs the pattern; on a buffer holding a
request line it goes on to build and send a response.  (With a return of 0 it
does go straight to closing.) -/
theorem handle_client_recv_error :
    to_size_t (-1) = 2 ^ 64 - 1 ∧
    handle_client (recv_error_world "") = Outcome.returned
      [Event.malloc Buf.buffer, Event.recv, Event.regcomp, Event.regexec, Event.regfree,
       Event.free Buf.buffer, Event.free Buf.arg, Event.close_client] ∧
    handle_client (recv_error_world "GET /missing.xyz HTTP/1.1\r\n\r\n") = Outcome.returned
      [Event.malloc Buf.buffer, Event.recv, Event.regcomp, Event.regexec,
       Event.malloc Buf.file_name, Event.malloc Buf.response, Event.malloc Buf.header,
       Event.open_file (bytes "missing.xyz") false,
       Event.send (bytes
         "HTTP/1.1 404 Not Found\r\nContent-Type: text/plain\r\n\r\n404 Not Found"),
       Event.free Buf.response, Event.free Buf.file_name, Event.regfree,
       Event.free Buf.buffer, Event.free Buf.arg, Event.close_client] ∧
    (∀ buffer fs rd, handle_client ⟨0, buffer, fs, rd⟩ = Outcome.returned
      [Event.malloc Buf.buffer, Event.recv, Event.free Buf.buffer, Event.free Buf.arg,
       Event.close_client]) := by
  refine ⟨by decide, by decide, by decide, ?_⟩
  intro buffer fs rd
  exact handle_client_recv_zero ⟨0, buffer, fs, rd⟩ rfl

/-- C9, the failing case. For the request `GET /a.` followed by 32 letters,
the extension of the decoded path is 32 bytes long, one more than the 31 that
fit in `file_ext[32]` with the terminator, and the `strcpy` of
`handle_client` writes past the array. -/
theorem handle_client_ext_overflow :
    matched_path (bytes "GET /a.abcdefghijklmnopqrstuvwxyzabcdef HTTP/1.1\r\n\r\n") =
      some (bytes "a.abcdefghijklmnopqrstuvwxyzabcdef") ∧
    url_decode (bytes "a.abcdefghijklmnopqrstuvwxyzabcdef") =
      some (bytes "a.abcdefghijklmnopqrstuvwxyzabcdef") ∧
    get_file_extension (bytes "a.abcdefghijklmnopqrstuvwxyzabcdef") =
      bytes "abcdefghijklmnopqrstuvwxyzabcdef" ∧
    (get_file_extension (bytes "a.abcdefghijklmnopqrstuvwxyzabcdef")).length = 32 ∧
    strcpy 32 (get_file_extension (bytes "a.abcdefghijklmnopqrstuvwxyzabcdef")) = none ∧
    handle_client (request_world "GET /a.abcdefghijklmnopqrstuvwxyzabcdef HTTP/1.1\r\n\r\n") =
      Outcome.fault Fault.ext_overflow := by
  refine ⟨by decide, by decide, by decide, by decide, by decide, by decide⟩

/-- C10, the failing case. For a request for a missing file, `handle_client`
returns having released `buffer`, `file_name` and `response` once each, but
the `header` block that `build_http_response` allocated is never released:
the early `return` of the 404 branch comes before `free(header)`.  On the
200 branch the same block is released once. -/
theorem handle_client_header_leak :
    handle_client (request_world "GET /missing.xyz HTTP/1.1\r\n\r\n") = Outcome.returned
      [Event.malloc Buf.buffer, Event.recv, Event.regcomp, Event.regexec,
       Event.malloc Buf.file_name, Event.malloc Buf.response, Event.malloc Buf.header,
       Event.open_file (bytes "missing.xyz") false,
       Event.send (bytes
         "HTTP/1.1 404 Not Found\r\nContent-Type: text/plain\r\n\r\n404 Not Found"),
       Event.free Buf.response, Event.free Buf.file_name, Event.regfree,
       Event.free Buf.buffer, Event.free Buf.arg, Event.close_client] ∧
    (handle_client (request_world "GET /missing.xyz HTTP/1.1\r\n\r\n")).trace.count
      (Event.malloc Buf.header) = 1 ∧
    (handle_client (request_world "GET /missing.xyz HTTP/1.1\r\n\r\n")).trace.count
      (Event.free Buf.header) = 0 ∧
    (handle_client (request_world "GET /index.html HTTP/1.1\r\n\r\n")).trace.count
      (Event.malloc Buf.header) = 1 ∧
    (handle_client (request_world "GET /index.html HTTP/1.1\r\n\r\n")).trace.count
      (Event.free Buf.header) = 1 := by
  refine ⟨by decide, by decide, by decide, by decide, by decide⟩

theorem read_loop_events (rd : Nat → Nat) (fuel : Nat) :
    ∀ (file response : List Nat) (response_len : Nat) (ev : List Event)
      (r : List Nat × Nat × List Event),
      read_loop rd fuel file response response_len ev = some r →
      ∃ reads, r.2.2 = ev ++ reads ∧ ∀ e ∈ reads, ∃ count n, e = Event.read count n := by
  induction fuel with
  | zero => intro file response response_len ev r h; simp [read_loop] at h
  | succ fuel ih =>
    intro file response response_len ev r h
    rw [read_loop] at h
    split at h
    · obtain ⟨reads, hr, hall⟩ := ih _ _ _ _ r h
      refine ⟨Event.read (size_sub BUFFER_SIZE response_len)
        (read rd (size_sub BUFFER_SIZE response_len) file.length) :: reads, ?_, ?_⟩
      · rw [hr, List.append_assoc]; rfl
      · intro e he
        rcases List.mem_cons.mp he with h1 | h1
        · exact ⟨_, _, h1⟩
        · exact hall e h1
    · simp only [Option.some.injEq] at h
      subst h
      exact ⟨[_], rfl, fun e he => ⟨_, _, List.mem_singleton.mp he⟩⟩

theorem count_reads (reads : List Event) (hall : ∀ e ∈ reads, ∃ count n, e = Event.read count n)
    (b : Buf) : reads.count (Event.malloc b) = 0 ∧ reads.count (Event.free b) = 0 := by
  constructor
  · apply List.count_eq_zero_of_not_mem
    intro hm
    obtain ⟨c, n, h⟩ := hall _ hm
    cases h
  · apply List.count_eq_zero_of_not_mem
    intro hm
    obtain ⟨c, n, h⟩ := hall _ hm
    cases h

theorem build_http_response_events (rd : Nat → Nat) (fs : List Nat → Option (List Nat))
    (file_name file_ext : List Nat) (b : Built)
    (h : build_http_response rd fs file_name file_ext = some b) :
    (fs file_name = none ∧
      b.events = [Event.malloc Buf.header, Event.open_file file_name false]) ∨
    (∃ reads, (∀ e ∈ reads, ∃ count n, e = Event.read count n) ∧
      b.events = [Event.malloc Buf.header, Event.open_file file_name true, Event.fstat] ++
        reads ++ [Event.free Buf.header, Event.close_file]) := by
  unfold build_http_response at h
  cases hfs : fs file_name with
  | none =>
    left
    rw [hfs] at h
    simp only [Option.some.injEq] at h
    subst h
    exact ⟨rfl, rfl⟩
  | some file =>
    right
    rw [hfs] at h
    simp only at h
    split at h
    · exact absurd h (by simp)
    · rename_i response response_len ev hloop
      obtain ⟨reads, hr, hall⟩ := read_loop_events rd _ _ _ _ _ _ hloop
      simp only [Option.some.injEq] at h
      subst h
      exact ⟨reads, hall, by simp only at hr; rw [hr]⟩

/-- On every path on which `handle_client` returns, `buffer`, `file_name` and
`response` are released as often as they are allocated, at most once;
`header` is released at most as often as it is allocated. -/
theorem handle_client_releases (w : World) (trace : List Event)
    (h : handle_client w = Outcome.returned trace) :
    trace.count (Event.malloc Buf.buffer) = 1 ∧ trace.count (Event.free Buf.buffer) = 1 ∧
    trace.count (Event.malloc Buf.file_name) = trace.count (Event.free Buf.file_name) ∧
    trace.count (Event.malloc Buf.file_name) ≤ 1 ∧
    trace.count (Event.malloc Buf.response) = trace.count (Event.free Buf.response) ∧
    trace.count (Event.malloc Buf.response) ≤ 1 ∧
    trace.count (Event.free Buf.header) ≤ trace.count (Event.malloc Buf.header) ∧
    trace.count (Event.malloc Buf.header) ≤ 1 := by
  unfold handle_client at h
  simp only at h
  split at h
  · split at h
    · split at h
      · exact absurd h (by simp)
      · split at h
        · exact absurd h (by simp)
        · split at h
          · exact absurd h (by simp)
          · rename_i b hb
            simp only [Outcome.returned.injEq] at h
            subst h
            rcases build_http_response_events _ _ _ _ _ hb with ⟨_, hev⟩ | ⟨reads, hall, hev⟩
            · rw [hev]
              simp [List.count_append, List.count_cons]
            · rw [hev]
              have h1 := fun b => (count_reads reads hall b).1
              have h2 := fun b => (count_reads reads hall b).2
              simp [List.count_append, List.count_cons, h1, h2]
    · simp only [Outcome.returned.injEq] at h
      subst h
      decide
  · simp only [Outcome.returned.injEq] at h
    subst h
    decide

/-- On every path on which `handle_client` returns after a failed `open`, the
`header` block was allocated once and never released; after a successful
`open` it was allocated once and released once. -/
theorem handle_client_header (w : World) (trace : List Event)
    (h : handle_client w = Outcome.returned trace) :
    (∀ name, Event.open_file name false ∈ trace →
      trace.count (Event.malloc Buf.header) = 1 ∧ trace.count (Event.free Buf.header) = 0) ∧
    (∀ name, Event.open_file name true ∈ trace →
      trace.count (Event.malloc Buf.header) = 1 ∧ trace.count (Event.free Buf.header) = 1) := by
  unfold handle_client at h
  simp only at h
  split at h
  · split at h
    · split at h
      · exact absurd h (by simp)
      · split at h
        · exact absurd h (by simp)
        · split at h
          · exact absurd h (by simp)
          · rename_i b hb
            simp only [Outcome.returned.injEq] at h
            subst h
            rcases build_http_response_events _ _ _ _ _ hb with ⟨_, hev⟩ | ⟨reads, hall, hev⟩
            · rw [hev]
              simp [List.count_append, List.count_cons]
            · rw [hev]
              have h1 := fun b => (count_reads reads hall b).1
              have h2 := fun b => (count_reads reads hall b).2
              constructor
              · intro name hmem
                exfalso
                simp only [List.mem_append, List.mem_cons, List.mem_singleton, reduceCtorEq,
                  Event.open_file.injEq, Bool.true_eq_false, and_false, false_or, or_false,
                  List.not_mem_nil, Bool.false_eq_true] at hmem
                obtain ⟨c, n, he⟩ := hall _ hmem
                cases he
              · intro name _
                simp [List.count_append, List.count_cons, h1, h2]
    · simp only [Outcome.returned.injEq] at h
      subst h
      simp
  · simp only [Outcome.returned.injEq] at h
    subst h
    simp

end HttpServer
